import Mathlib

/-!
Shallow embedding of `plugins/groups_manager.py` (the groups-manager DNF
plugin) and proofs about the claims of its specification.

Python strings are modelled as Lean `String` (lists of characters);
machine-level details (argparse wiring, libcomps XML I/O) are out of scope
exactly as in the spec; the in-memory model, validators, lookup, edit and
run logic are translated from the source.
-/

namespace GroupsManager

/-- Errors surfaced by the plugin: `argparse.ArgumentTypeError` and
`dnf.cli.CliError` / `dnf.exceptions.Error` cases, one constructor per
distinct failure site in the source. -/
inductive Err where
  | InvalidGroupId
  | InvalidTranslationFormat
  | InvalidLanguageTag
  | EmptyDerivedIdentifier (text : String)
  | GroupRequiredForEdit
  | CannotRemoveFromNonexistentGroup
  | DuplicateDerivedIdentifier (gid name : String)
  deriving Repr, DecidableEq

/-- The character class `[-a-z0-9_.:]` of `RE_GROUP_ID_VALID` (source line 33). -/
def isGroupIdChar (c : Char) : Bool :=
  c == '-' || ('a' ≤ c && c ≤ 'z') || ('0' ≤ c && c ≤ '9') ||
  c == '_' || c == '.' || c == ':'

/-- The character class `[-a-zA-Z0-9_.@]` of `RE_LANG` (source line 35). -/
def isLangChar (c : Char) : Bool :=
  c == '-' || ('a' ≤ c && c ≤ 'z') || ('A' ≤ c && c ≤ 'Z') ||
  ('0' ≤ c && c ≤ '9') || c == '_' || c == '.' || c == '@'

/-- Tail of a Python `re.match("^[class]+$", s)` after at least one class
character was consumed: the rest must be class characters, except that the
pattern also matches when a single final newline remains, because without
`re.MULTILINE` the `$` anchor matches just before a trailing newline. -/
def reClassPlusTail (p : Char → Bool) : List Char → Bool
  | [] => true
  | [c] => p c || c == '\n'
  | c :: cs => p c && reClassPlusTail p cs

/-- Python `re.match("^[class]+$", s) is not None`: one or more characters
of the class, optionally followed by one trailing newline (the `$`-before-
final-newline behaviour of Python regexes without `re.MULTILINE`). -/
def reClassPlusMatch (p : Char → Bool) : List Char → Bool
  | [] => false
  | c :: cs => p c && reClassPlusTail p cs

/-- `group_id_type` (source lines 42-46): returns the value unchanged when
`RE_GROUP_ID.match(value)` succeeds, otherwise raises
`argparse.ArgumentTypeError('Invalid group id')`. -/
def group_id_type (value : String) : Except Err String :=
  if reClassPlusMatch isGroupIdChar value.data then .ok value
  else .error .InvalidGroupId

/-- Split off everything up to the first occurrence of `sep`, when present. -/
def splitOnce (sep : Char) : List Char → Option (List Char × List Char)
  | [] => none
  | c :: cs =>
    if c == sep then some ([], cs)
    else (splitOnce sep cs).map (fun q => (c :: q.1, q.2))

/-- Python `s.split(sep, maxsplit)`: at most `maxsplit` splits, the
remainder is kept whole as the last part. -/
def pySplitMax (sep : Char) : Nat → List Char → List (List Char)
  | 0, cs => [cs]
  | n + 1, cs =>
    match splitOnce sep cs with
    | none => [cs]
    | some (a, b) => a :: pySplitMax sep n b

/-- `translation_type` (source lines 49-58): `data = value.split(':', 2)`,
requires exactly two parts, then validates the language part against
`RE_LANG`. -/
def translation_type (value : String) : Except Err (String × String) :=
  match pySplitMax ':' 2 value.data with
  | [lang, text] =>
    if reClassPlusMatch isLangChar lang then .ok (⟨lang⟩, ⟨text⟩)
    else .error .InvalidLanguageTag
  | _ => .error .InvalidTranslationFormat

/-- Python `str.lower` of one character (`c.lower()` can be longer than
one character). Exact on every character whose lowercase contains a
character of the identifier class `-a-z0-9_.:`: the ASCII letters `A`-`Z`,
U+212A KELVIN SIGN (lowercase `k`), and U+0130 LATIN CAPITAL LETTER I WITH
DOT ABOVE (lowercase `i` followed by combining U+0307 — the only
length-changing lowercase mapping in Unicode). Every other character either
is left unchanged by `str.lower` or lowercases (even under the
context-sensitive final-sigma rule) to characters outside that class, so
modelling it as itself is indistinguishable from the true mapping once
`text_to_id` filters to the class. -/
def pyLowerChar (c : Char) : List Char :=
  if c = Char.ofNat 0x212A then ['k']
  else if c = Char.ofNat 0x130 then ['i', Char.ofNat 0x307]
  else if 'A' ≤ c && c ≤ 'Z' then [Char.ofNat (c.toNat + 32)]
  else [c]

/-- `text_to_id` (source lines 61-69): lowercase the text, delete every
character outside `[-a-z0-9_.:]` (`re.sub` of the complement class), and
raise `dnf.cli.CliError` when nothing remains. -/
def text_to_id (text : String) : Except Err String :=
  let group_id : List Char :=
    (text.data.flatMap pyLowerChar).filter isGroupIdChar
  if group_id.isEmpty then .error (.EmptyDerivedIdentifier text)
  else .ok ⟨group_id⟩

/-- A comps group record. Modelled from the spec: the concrete record type
is `libcomps.Group`, external to this repository; §3 of the design gives its
attributes (`id`, `name`, `description`, `display_order`, `user_visible`,
`name_by_lang`, `desc_by_lang`). Unset string attributes are modelled as
`""`, an absent display order as `none`; package lists are out of scope. -/
structure Group where
  id : String
  name : String
  desc : String
  display_order : Option Int
  uservisible : Bool
  name_by_lang : List (String × String)
  desc_by_lang : List (String × String)
  deriving Repr, DecidableEq

/-- Modelled from the spec: a fresh `libcomps.Group()` as constructed at
source line 230 — empty strings, no display order, `user_visible` defaulting
to true (§3: "boolean, default true"), empty translation maps. -/
def newGroup : Group :=
  { id := "", name := "", desc := "", display_order := none,
    uservisible := true, name_by_lang := [], desc_by_lang := [] }

/-- The parsed command-line options the command reads (`self.opts`);
argparse defaults are `none` / `[]` / `false` (source lines 84-119).
`user_visible` is `Option Bool` so that the source's `is not None` test
(lines 137 and 211) is translated literally; `none` models Python `None`.
The visibility pair (lines 108-112) declares `store_true` / `store_false`
actions with no `default=None`, so argparse applies the first registered
action's default and `user_visible` parses to `False` when neither flag is
given, `True` for `--user-visible`, `False` for `--not-user-visible` — the
`none` state is never produced by this parser. -/
structure Opts where
  load : List String
  save : List String
  merge : Option String
  print : Bool
  id : Option String
  name : Option String
  description : Option String
  display_order : Option Int
  translated_name : List (String × String)
  translated_description : List (String × String)
  user_visible : Option Bool
  remove : Bool
  deriving Repr, DecidableEq

/-- The options as argparse initialises them before any flag is given; in
particular `user_visible := some false`, because the visibility arguments
carry no `default=None` (see the `Opts` doc comment). -/
def defaultOpts : Opts :=
  { load := [], save := [], merge := none, print := false, id := none,
    name := none, description := none, display_order := none,
    translated_name := [], translated_description := [],
    user_visible := some false, remove := false }

/-- Python truthiness of an optional string: `None` and `""` are falsy. -/
def strOptTruthy : Option String → Bool
  | none => false
  | some s => !s.isEmpty

/-- Python truthiness of an optional integer: `None` and `0` are falsy. -/
def intOptTruthy : Option Int → Bool
  | none => false
  | some n => n != 0

/-- One `str_dict[lang] = text` assignment on a `libcomps.StrDict`,
modelled as a key-unique association list with dict update semantics:
an existing key is overwritten in place, a new key is appended. -/
def strDictInsert (d : List (String × String)) (lang text : String) :
    List (String × String) :=
  if d.any (fun p => p.1 == lang) then
    d.map (fun p => if p.1 == lang then (lang, text) else p)
  else d ++ [(lang, text)]

/-- `langlist_to_strdict` (source lines 198-202): build a `StrDict` from
the `(lang, text)` pairs in order; a later pair for the same language
overwrites an earlier one. -/
def langlist_to_strdict (lst : List (String × String)) :
    List (String × String) :=
  lst.foldl (fun d p => strDictInsert d p.1 p.2) []

/-- `edit_group` (source lines 194-216): each attribute assignment is
guarded by the truthiness (or, for `user_visible`, the `is not None`-ness)
of the corresponding option; the guarded assignments touch pairwise
distinct attributes, so the sequence of in-place updates is written as one
record update. -/
def edit_group (o : Opts) (g : Group) : Group :=
  { g with
    name := if strOptTruthy o.name then o.name.getD "" else g.name,
    desc := if strOptTruthy o.description then o.description.getD "" else g.desc,
    display_order :=
      if intOptTruthy o.display_order then o.display_order else g.display_order,
    uservisible :=
      match o.user_visible with
      | some b => b
      | none => g.uservisible,
    name_by_lang :=
      if !o.translated_name.isEmpty then langlist_to_strdict o.translated_name
      else g.name_by_lang,
    desc_by_lang :=
      if !o.translated_description.isEmpty then
        langlist_to_strdict o.translated_description
      else g.desc_by_lang }

/-- `configure` (source lines 121-140), the parts that act on the options:
`--merge` is prepended to the load list and appended to the save list, then
the edit-flags guard raises `dnf.cli.CliError` when any of `description`,
`display_order`, `translated_name`, `translated_description` is truthy or
`user_visible` was set while neither `id` nor `name` is truthy. -/
def configure (o : Opts) : Except Err Opts :=
  let o' :=
    match o.merge with
    | some m => { o with load := m :: o.load, save := o.save ++ [m] }
    | none => o
  if strOptTruthy o'.description || intOptTruthy o'.display_order ||
      !o'.translated_name.isEmpty || !o'.translated_description.isEmpty ||
      o'.user_visible.isSome then
    if !strOptTruthy o'.id && !strOptTruthy o'.name then
      .error .GroupRequiredForEdit
    else .ok o'
  else .ok o'

/-- A `for grp in groups: if p(grp): ...; break` scan: the index and value
of the first element satisfying `p`, or `none`. -/
def firstMatch (p : Group → Bool) : List Group → Option (Nat × Group)
  | [] => none
  | g :: gs =>
    if p g then some (0, g)
    else (firstMatch p gs).map (fun x => (x.1 + 1, x.2))

/-- `find_group` (source lines 176-192), tracking also the position of the
found group (the source mutates the found object in place; the position
lets the pure model say which list cell that object is): scan by id when
`group_id` is truthy, then — only if nothing was found — scan by name when
`name` is truthy. -/
def find_group_aux (groups : List Group) (group_id name : Option String) :
    Option (Nat × Group) :=
  let byId :=
    match group_id with
    | some s => if s.isEmpty then none else firstMatch (fun g => g.id == s) groups
    | none => none
  match byId with
  | some x => some x
  | none =>
    match name with
    | some s => if s.isEmpty then none else firstMatch (fun g => g.name == s) groups
    | none => none

/-- `find_group`'s return value: the first group found by id, else by name. -/
def find_group (groups : List Group) (group_id name : Option String) :
    Option Group :=
  (find_group_aux groups group_id name).map (fun x => x.2)

/-- Modelled from the spec: `self.comps += file_comps` (source line 162)
merges via the external libcomps `Comps` addition; §4.3 specifies it
"appends every group of `other` to `self` in order, without deduplication
or collision detection at merge time". -/
def Collection.merge (a b : List Group) : List Group := a ++ b

/-- `load_input_files` (source lines 142-164) restricted to the collection
it builds: the filesystem/parser is the map `fs` from file name to parsed
sub-collection (`none` models an `IOError`/`ParserError`, which is logged
and skipped); each successfully parsed file is merged in input order. -/
def load_input_files (fs : String → Option (List Group))
    (names : List String) : List Group :=
  names.foldl
    (fun acc n =>
      match fs n with
      | some sub => Collection.merge acc sub
      | none => acc)
    []

/-- The group-editing portion of `run` (source lines 220-243) acting on the
merged collection: locate the group by id/name; if absent, fail under
`--remove`, else build the new group (explicit id, or id derived from the
name with a duplicate check) and append it; finally apply `edit_group` to
the located or created group. In-place mutation of the located group is
modelled by `List.set` at its position. -/
def run_groups (o : Opts) (comps : List Group) : Except Err (List Group) :=
  if strOptTruthy o.id || strOptTruthy o.name then
    match find_group_aux comps o.id o.name with
    | some (i, g) => .ok (comps.set i (edit_group o g))
    | none =>
      if o.remove then .error .CannotRemoveFromNonexistentGroup
      else
        ((if strOptTruthy o.id then
          .ok { newGroup with id := o.id.getD "", name := o.id.getD "" }
        else if strOptTruthy o.name then
          match text_to_id (o.name.getD "") with
          | .error e => .error e
          | .ok group_id =>
            if (find_group comps (some group_id) none).isSome then
              .error (.DuplicateDerivedIdentifier group_id (o.name.getD ""))
            else .ok { newGroup with id := group_id }
        else .ok newGroup : Except Err Group)).map
          (fun g => comps ++ [edit_group o g])
  else .ok comps

/-- One whole invocation up to the final collection handed to the save /
print steps: `configure`, then load-and-merge, then the `run` group logic.
Save and print only serialise the result, so the collection `full_run`
returns is what every destination receives. -/
def full_run (o : Opts) (fs : String → Option (List Group)) :
    Except Err (List Group) := do
  let o' ← configure o
  run_groups o' (load_input_files fs o'.load)

/-! ## Helper lemmas -/

theorem reClassPlusTail_iff (p : Char → Bool) (cs : List Char) :
    reClassPlusTail p cs = true ↔
      cs.all p = true ∨ ∃ t, cs = t ++ ['\n'] ∧ t.all p = true := by
  induction cs with
  | nil =>
    simp [reClassPlusTail]
  | cons c cs ih =>
    cases cs with
    | nil =>
      show (p c || c == '\n') = true ↔ _
      simp only [Bool.or_eq_true, beq_iff_eq, List.all_cons, List.all_nil,
        Bool.and_true]
      constructor
      · rintro (h | h)
        · exact Or.inl h
        · exact Or.inr ⟨[], by simp [h], rfl⟩
      · rintro (h | ⟨t, ht, hall⟩)
        · exact Or.inl h
        · cases t with
          | nil => simp at ht; exact Or.inr ht
          | cons x t' => simp at ht
    | cons c' cs' =>
      show (p c && reClassPlusTail p (c' :: cs')) = true ↔ _
      rw [Bool.and_eq_true, ih]
      constructor
      · rintro ⟨hc, h | ⟨t, ht, hall⟩⟩
        · exact Or.inl (by simp [hc, h])
        · exact Or.inr ⟨c :: t, by simp [ht], by simp [hc, hall]⟩
      · rintro (h | ⟨t, ht, hall⟩)
        · rw [List.all_cons, Bool.and_eq_true] at h
          exact ⟨h.1, Or.inl h.2⟩
        · cases t with
          | nil => simp at ht
          | cons x t' =>
            simp only [List.cons_append, List.cons.injEq] at ht
            rw [List.all_cons, Bool.and_eq_true] at hall
            exact ⟨ht.1 ▸ hall.1, Or.inr ⟨t', ht.2, hall.2⟩⟩

theorem reClassPlusMatch_iff (p : Char → Bool) (cs : List Char) :
    reClassPlusMatch p cs = true ↔
      (cs ≠ [] ∧ cs.all p = true) ∨
      (∃ t, cs = t ++ ['\n'] ∧ t ≠ [] ∧ t.all p = true) := by
  cases cs with
  | nil =>
    simp [reClassPlusMatch]
  | cons c cs =>
    show (p c && reClassPlusTail p cs) = true ↔ _
    rw [Bool.and_eq_true, reClassPlusTail_iff]
    constructor
    · rintro ⟨hc, h | ⟨t, ht, hall⟩⟩
      · exact Or.inl ⟨List.cons_ne_nil _ _, by simp [hc, h]⟩
      · exact Or.inr ⟨c :: t, by simp [ht], List.cons_ne_nil _ _, by simp [hc, hall]⟩
    · rintro (⟨_, h⟩ | ⟨t, ht, hne, hall⟩)
      · simp only [List.all_cons, Bool.and_eq_true] at h
        exact ⟨h.1, Or.inl h.2⟩
      · cases t with
        | nil => exact absurd rfl hne
        | cons x t' =>
          simp only [List.cons_append, List.cons.injEq] at ht
          rw [List.all_cons, Bool.and_eq_true] at hall
          exact ⟨ht.1 ▸ hall.1, Or.inr ⟨t', ht.2, hall.2⟩⟩

theorem firstMatch_eq_none_iff (p : Group → Bool) (l : List Group) :
    firstMatch p l = none ↔ ∀ g ∈ l, p g = false := by
  induction l with
  | nil => simp [firstMatch]
  | cons g gs ih =>
    by_cases h : p g = true
    · simp [firstMatch, h]
    · simp only [Bool.not_eq_true] at h
      simp [firstMatch, h, Option.map_eq_none', ih]

theorem firstMatch_isSome_iff (p : Group → Bool) (l : List Group) :
    (firstMatch p l).isSome = true ↔ ∃ g ∈ l, p g = true := by
  induction l with
  | nil => simp [firstMatch]
  | cons g gs ih =>
    by_cases h : p g = true
    · simp only [firstMatch, h, if_true, Option.isSome_some, true_iff]
      exact ⟨g, by simp, h⟩
    · simp only [Bool.not_eq_true] at h
      simp only [firstMatch, h, Bool.false_eq_true, if_false]
      rw [show ∀ o : Option (Nat × Group),
            (o.map (fun x => (x.1 + 1, x.2))).isSome = o.isSome from
          fun o => by cases o <;> rfl, ih]
      constructor
      · rintro ⟨g', hg', hpg⟩
        exact ⟨g', by simp [hg'], hpg⟩
      · rintro ⟨g', hg', hpg⟩
        rcases (by simpa using hg' : g' = g ∨ g' ∈ gs) with rfl | hmem
        · rw [h] at hpg; simp at hpg
        · exact ⟨g', hmem, hpg⟩

theorem firstMatch_append_of_some (p : Group → Bool) (A B : List Group)
    (r : Nat × Group) (h : firstMatch p A = some r) :
    firstMatch p (A ++ B) = some r := by
  induction A generalizing r with
  | nil => simp [firstMatch] at h
  | cons g gs ih =>
    by_cases hg : p g = true
    · simpa [firstMatch, hg] using h
    · simp only [Bool.not_eq_true] at hg
      simp only [firstMatch, hg, Bool.false_eq_true, if_false,
        Option.map_eq_some'] at h ⊢
      obtain ⟨r', hr', rfl⟩ := h
      exact ⟨r', ih r' hr', rfl⟩

theorem firstMatch_first (p : Group → Bool) (pre post : List Group)
    (g : Group) (hpre : ∀ x ∈ pre, p x = false) (hg : p g = true) :
    firstMatch p (pre ++ g :: post) = some (pre.length, g) := by
  induction pre with
  | nil => simp [firstMatch, hg]
  | cons x xs ih =>
    have hx : p x = false := hpre x (by simp)
    have ih' := ih (fun y hy => hpre y (by simp [hy]))
    simp [firstMatch, hx, ih']

theorem set_append_of_lt (A B : List Group) (i : Nat) (x : Group)
    (h : i < A.length) : (A ++ B).set i x = A.set i x ++ B := by
  induction A generalizing i with
  | nil => simp at h
  | cons a as ih =>
    cases i with
    | zero => simp
    | succ j =>
      simp only [List.cons_append, List.set_cons_succ, List.cons.injEq,
        true_and]
      exact ih j (by simpa using h)

theorem stringMk_eq_iff (l : List Char) (r : String) :
    (⟨l⟩ : String) = r ↔ r.data = l := by
  cases r with
  | mk d => exact ⟨fun h => by cases h; rfl, fun h => by cases h; rfl⟩

/-- The id a successful `text_to_id` returns is nonempty. -/
theorem text_to_id_ok_ne_empty (s r : String) (h : text_to_id s = .ok r) :
    r ≠ "" := by
  unfold text_to_id at h
  intro hc
  subst hc
  by_cases he : ((s.data.flatMap pyLowerChar).filter isGroupIdChar).isEmpty = true
  · simp [he] at h
  · simp only [he, Bool.false_eq_true, if_false, Except.ok.injEq] at h
    have h2 : (s.data.flatMap pyLowerChar).filter isGroupIdChar = [] :=
      congrArg String.data h
    simp [h2] at he

theorem firstMatch_some_lt (p : Group → Bool) (l : List Group) (i : Nat)
    (g : Group) (h : firstMatch p l = some (i, g)) : i < l.length := by
  induction l generalizing i with
  | nil => simp [firstMatch] at h
  | cons x xs ih =>
    by_cases hx : p x = true
    · simp only [firstMatch, hx, if_true, Option.some.injEq,
        Prod.mk.injEq] at h
      obtain ⟨h1, _⟩ := h
      subst h1
      simp
    · simp only [Bool.not_eq_true] at hx
      simp only [firstMatch, hx, Bool.false_eq_true, if_false,
        Option.map_eq_some'] at h
      obtain ⟨⟨ri, rg⟩, hr, hri⟩ := h
      simp only [Prod.mk.injEq] at hri
      obtain ⟨hi, hg⟩ := hri
      subst hg
      have := ih ri hr
      simp only [List.length_cons]
      omega

theorem strOptTruthy_of_ne (s : String) (h : s ≠ "") :
    strOptTruthy (some s) = true := by
  have he : s.isEmpty = false := by
    rw [Bool.eq_false_iff]
    intro hc
    exact h ((String.isEmpty_iff s).mp hc)
  simp [strOptTruthy, he]

theorem isEmpty_false_of_ne (s : String) (h : s ≠ "") :
    s.isEmpty = false := by
  rw [Bool.eq_false_iff]
  intro hc
  exact h ((String.isEmpty_iff s).mp hc)

/-! ## Claim theorems -/

/-- Claim C1: the spec says `parse_translation("en:Hello:World")` succeeds
as `("en", "Hello:World")` because the split is bounded to two parts; the
code calls `value.split(':', 2)`, which is bounded to THREE parts (two
splits), so the length-two check rejects any value whose text contains a
colon. At the failing input `"en:Hello:World"` the code raises
`InvalidTranslationFormat` where the spec promises success; a one-colon
value still parses. -/
theorem translation_type_colon_in_text_rejected :
    translation_type "en:Hello:World" = .error .InvalidTranslationFormat ∧
    translation_type "en:Hello" = .ok ("en", "Hello") ∧
    translation_type "en:a:b:c" = .error .InvalidTranslationFormat := by
  refine ⟨?_, ?_, ?_⟩ <;> rfl

/-- Claim C3, counterexample: the claim says any string containing a
character outside `-a-z0-9_.:` — "such as a trailing newline" — is
rejected; but Python's `$` anchor (no `re.MULTILINE`) matches just before
a final newline, so `group_id_type "a\n"` accepts and returns the string,
newline included. -/
theorem group_id_type_newline_counterexample :
    group_id_type "a\n" = .ok "a\n" ∧ ('\n' ∈ ("a\n" : String).data ∧
      isGroupIdChar '\n' = false) := by
  refine ⟨rfl, by decide, rfl⟩

/-- Claim C3, amended: the identifier validator accepts `s` (returning it
unchanged; otherwise it rejects with `InvalidGroupId`) iff `s` is a
non-empty string of characters from `-a-z0-9_.:`, or such a string followed
by one trailing newline — the trailing-newline exception coming from
Python's `$` anchor semantics. -/
theorem group_id_type_spec (s : String) :
    (group_id_type s = .ok s ∨ group_id_type s = .error .InvalidGroupId) ∧
    (group_id_type s = .ok s ↔
      (s.data ≠ [] ∧ ∀ c ∈ s.data, isGroupIdChar c = true) ∨
      ∃ t, s.data = t ++ ['\n'] ∧ t ≠ [] ∧ ∀ c ∈ t, isGroupIdChar c = true) := by
  have key := reClassPlusMatch_iff isGroupIdChar s.data
  simp only [List.all_eq_true] at key
  constructor
  · unfold group_id_type
    split
    · exact Or.inl rfl
    · exact Or.inr rfl
  · unfold group_id_type
    by_cases h : reClassPlusMatch isGroupIdChar s.data = true
    · rw [if_pos h]
      exact iff_of_true rfl (key.mp h)
    · rw [if_neg h]
      constructor
      · intro hc
        exact Except.noConfusion hc
      · intro hr
        exact absurd (key.mpr hr) h

/-- Claim C4: `derive_id` lowercases the name (Python `str.lower`,
including the non-ASCII mappings that reach the identifier class, e.g.
U+212A KELVIN SIGN → `k` and U+0130 → `i` + U+0307), keeps exactly the
characters of `-a-z0-9_.:`, fails with `EmptyDerivedIdentifier` exactly
when nothing remains, and on success returns exactly that non-empty
filtered string; in particular `derive_id "My Group!" = "mygroup"` and
`derive_id "!!!"` fails, while the Kelvin sign alone derives `"k"`. -/
theorem text_to_id_spec (s : String) :
    (text_to_id s = .error (.EmptyDerivedIdentifier s) ↔
      (s.data.flatMap pyLowerChar).filter isGroupIdChar = []) ∧
    (∀ r : String, text_to_id s = .ok r ↔
      (r.data = (s.data.flatMap pyLowerChar).filter isGroupIdChar ∧
        r.data ≠ [])) ∧
    text_to_id "My Group!" = .ok "mygroup" ∧
    text_to_id "!!!" = .error (.EmptyDerivedIdentifier "!!!") ∧
    text_to_id "\u212A" = .ok "k" ∧
    text_to_id "\u0130" = .ok "i" := by
  refine ⟨?_, ?_, rfl, rfl, rfl, rfl⟩
  · unfold text_to_id
    by_cases he : ((s.data.flatMap pyLowerChar).filter isGroupIdChar).isEmpty = true
    · rw [if_pos he]
      exact iff_of_true rfl (List.isEmpty_iff.mp he)
    · rw [if_neg he]
      constructor
      · intro hc
        exact Except.noConfusion hc
      · intro hr
        exact absurd (List.isEmpty_iff.mpr hr) he
  · intro r
    unfold text_to_id
    by_cases he : ((s.data.flatMap pyLowerChar).filter isGroupIdChar).isEmpty = true
    · rw [if_pos he]
      constructor
      · intro hc
        exact Except.noConfusion hc
      · rintro ⟨hdata, hne⟩
        exact absurd (hdata.trans (List.isEmpty_iff.mp he)) hne
    · rw [if_neg he]
      simp only [Except.ok.injEq, stringMk_eq_iff]
      constructor
      · intro hdata
        refine ⟨hdata, ?_⟩
        rw [hdata]
        intro hnil
        exact he (List.isEmpty_iff.mpr hnil)
      · exact fun h => h.1

/-- Claim C9: a requested display order of 0 is falsy in the `if
self.opts.display_order:` guard, so the edit behaves exactly as if no
display order had been supplied; any nonzero requested order overwrites
the field. -/
theorem display_order_zero_ignored (o : Opts) (g : Group) :
    (o.display_order = some 0 →
      edit_group o g = edit_group { o with display_order := none } g) ∧
    (∀ n : Int, n ≠ 0 → o.display_order = some n →
      (edit_group o g).display_order = some n) := by
  constructor
  · intro h
    simp [edit_group, h, intOptTruthy]
  · intro n hn h
    simp [edit_group, h, intOptTruthy, hn]

/-- Claim C9 witness: with display order 0 the edit equals the edit with no
display order, and display order 5 is written through. -/
theorem display_order_zero_ignored_witness :
    edit_group { defaultOpts with display_order := some 0 } newGroup =
      edit_group { { defaultOpts with display_order := some 0 } with
        display_order := none } newGroup ∧
    (edit_group { defaultOpts with display_order := some 5 } newGroup).display_order =
      some 5 :=
  ⟨(display_order_zero_ignored { defaultOpts with display_order := some 0 }
      newGroup).1 rfl,
   (display_order_zero_ignored { defaultOpts with display_order := some 5 }
      newGroup).2 5 (by decide) rfl⟩

/-- Claim C10 (implicit): an empty requested name or description is falsy,
so the corresponding field is silently left unchanged — hence no edit can
turn a non-empty name or description into the empty string — and empty
translation lists leave the existing translation maps in place. -/
theorem edit_group_empty_values_skipped (o : Opts) (g : Group) :
    (o.name = some "" → (edit_group o g).name = g.name) ∧
    (o.description = some "" → (edit_group o g).desc = g.desc) ∧
    (o.translated_name = [] →
      (edit_group o g).name_by_lang = g.name_by_lang) ∧
    (o.translated_description = [] →
      (edit_group o g).desc_by_lang = g.desc_by_lang) ∧
    ((edit_group o g).name = "" → g.name = "") ∧
    ((edit_group o g).desc = "" → g.desc = "") := by
  refine ⟨?_, ?_, ?_, ?_, ?_, ?_⟩
  · intro h
    simp [edit_group, h, strOptTruthy,
      show ("" : String).isEmpty = true from rfl]
  · intro h
    simp [edit_group, h, strOptTruthy,
      show ("" : String).isEmpty = true from rfl]
  · intro h
    simp [edit_group, h]
  · intro h
    simp [edit_group, h]
  · intro h
    cases hn : o.name with
    | none =>
      simpa [edit_group, hn, strOptTruthy] using h
    | some s =>
      by_cases hs : s.isEmpty = true
      · have hskip : strOptTruthy (some s) = false := by
          simp [strOptTruthy, hs]
        simpa [edit_group, hn, hskip] using h
      · have htru : strOptTruthy (some s) = true := by
          simp [strOptTruthy]
          simpa using hs
        simp only [edit_group, hn, htru, if_true, Option.getD_some] at h
        subst h
        exact absurd rfl hs
  · intro h
    cases hn : o.description with
    | none =>
      simpa [edit_group, hn, strOptTruthy] using h
    | some s =>
      by_cases hs : s.isEmpty = true
      · have hskip : strOptTruthy (some s) = false := by
          simp [strOptTruthy, hs]
        simpa [edit_group, hn, hskip] using h
      · have htru : strOptTruthy (some s) = true := by
          simp [strOptTruthy]
          simpa using hs
        simp only [edit_group, hn, htru, if_true, Option.getD_some] at h
        subst h
        exact absurd rfl hs

/-- Claim C10 witness: empty name, description and translation lists leave
a concrete group's fields unchanged. -/
theorem edit_group_empty_values_skipped_witness :
    (edit_group { defaultOpts with name := some "", description := some "" }
        { newGroup with name := "N", desc := "D" }).name =
      ({ newGroup with name := "N", desc := "D" } : Group).name ∧
    (edit_group { defaultOpts with name := some "", description := some "" }
        { newGroup with name := "N", desc := "D" }).desc =
      ({ newGroup with name := "N", desc := "D" } : Group).desc ∧
    (edit_group { defaultOpts with name := some "", description := some "" }
        { newGroup with name := "N", desc := "D" }).name_by_lang =
      ({ newGroup with name := "N", desc := "D" } : Group).name_by_lang ∧
    (edit_group { defaultOpts with name := some "", description := some "" }
        { newGroup with name := "N", desc := "D" }).desc_by_lang =
      ({ newGroup with name := "N", desc := "D" } : Group).desc_by_lang :=
  ⟨(edit_group_empty_values_skipped _ _).1 rfl,
   (edit_group_empty_values_skipped _ _).2.1 rfl,
   (edit_group_empty_values_skipped _ _).2.2.1 rfl,
   (edit_group_empty_values_skipped _ _).2.2.2.1 rfl⟩

/-- Claim C8: when the options carry only `--not-user-visible` (addressed
by id), editing the located group sets exactly `uservisible := false` and
no other field, the collection is updated only at the located position, and
every other group is untouched. -/
theorem edit_only_not_user_visible (comps : List Group) (gid : String)
    (k : Nat) (g : Group) (hgid : gid ≠ "")
    (hfind : find_group_aux comps (some gid) none = some (k, g)) :
    edit_group { defaultOpts with id := some gid, user_visible := some false }
        g = { g with uservisible := false } ∧
    run_groups { defaultOpts with id := some gid, user_visible := some false }
        comps = .ok (comps.set k { g with uservisible := false }) ∧
    ∀ j, j ≠ k →
      (comps.set k { g with uservisible := false })[j]? = comps[j]? := by
  refine ⟨rfl, ?_, ?_⟩
  · have ht : strOptTruthy (some gid) = true := strOptTruthy_of_ne gid hgid
    simp [run_groups, ht, hfind, defaultOpts, edit_group, strOptTruthy,
      intOptTruthy, isEmpty_false_of_ne gid hgid]
  · intro j hj
    rw [List.getElem?_set_ne (Ne.symm hj)]

/-- Claim C8 witness: on a concrete two-group collection the visibility
edit flips only the first group's `uservisible`. -/
theorem edit_only_not_user_visible_witness :
    run_groups { defaultOpts with id := some "a", user_visible := some false }
        [{ newGroup with id := "a", name := "A" }, { newGroup with id := "b" }] =
      .ok ([{ newGroup with id := "a", name := "A" },
            { newGroup with id := "b" }].set 0
        { { newGroup with id := "a", name := "A" } with uservisible := false }) ∧
    ([{ newGroup with id := "a", name := "A" },
      { newGroup with id := "b" }].set 0
        { { newGroup with id := "a", name := "A" } with
          uservisible := false })[1]? =
      [{ newGroup with id := "a", name := "A" },
       { newGroup with id := "b" }][1]? :=
  ⟨(edit_only_not_user_visible
      [{ newGroup with id := "a", name := "A" }, { newGroup with id := "b" }]
      "a" 0 { newGroup with id := "a", name := "A" }
      (by decide) rfl).2.1,
   (edit_only_not_user_visible
      [{ newGroup with id := "a", name := "A" }, { newGroup with id := "b" }]
      "a" 0 { newGroup with id := "a", name := "A" }
      (by decide) rfl).2.2 1 (by decide)⟩

/-- Claim C5: with a non-empty id and a non-empty name, `find_group`
returns the first group whose id matches whenever one exists — the groups
before it are only constrained on their ids, so an earlier name match does
not win; only when no id matches anywhere does it return the first name
match; and an empty id argument skips the id scan entirely. -/
theorem find_group_precedence (pre post : List Group) (g : Group)
    (s t : String) (hs : s ≠ "") (ht : t ≠ "") :
    (g.id = s → (∀ x ∈ pre, x.id ≠ s) →
      find_group (pre ++ g :: post) (some s) (some t) = some g) ∧
    ((∀ x ∈ pre ++ g :: post, x.id ≠ s) → g.name = t →
      (∀ x ∈ pre, x.name ≠ t) →
      find_group (pre ++ g :: post) (some s) (some t) = some g) ∧
    (∀ groups : List Group,
      find_group groups (some "") (some t) = find_group groups none (some t)) := by
  have hsE : s.isEmpty = false := isEmpty_false_of_ne s hs
  have htE : t.isEmpty = false := isEmpty_false_of_ne t ht
  refine ⟨?_, ?_, ?_⟩
  · intro hg hpre
    have h1 : firstMatch (fun x => x.id == s) (pre ++ g :: post) =
        some (pre.length, g) :=
      firstMatch_first _ pre post g (fun x hx => by simp [hpre x hx])
        (by simp [hg])
    simp [find_group, find_group_aux, hsE, h1]
  · intro hall hgname hpre
    have hnone : firstMatch (fun x => x.id == s) (pre ++ g :: post) = none :=
      (firstMatch_eq_none_iff _ _).mpr (fun x hx => by simp [hall x hx])
    have h2 : firstMatch (fun x => x.name == t) (pre ++ g :: post) =
        some (pre.length, g) :=
      firstMatch_first _ pre post g (fun x hx => by simp [hpre x hx])
        (by simp [hgname])
    simp [find_group, find_group_aux, hsE, hnone, htE, h2]
  · intro groups
    simp [find_group, find_group_aux,
      show ("" : String).isEmpty = true from rfl]

/-- Claim C5 witness: the id match in second position beats the name match
in first position; removing the id match makes the name match win; an
empty id goes straight to the name scan. -/
theorem find_group_precedence_witness :
    find_group ([{ newGroup with id := "x", name := "t" }] ++
        { newGroup with id := "s", name := "n" } :: [])
      (some "s") (some "t") = some { newGroup with id := "s", name := "n" } ∧
    find_group ([{ newGroup with id := "x", name := "t" }] ++
        { newGroup with id := "q", name := "t" } :: [])
      (some "s") (some "t") = some { newGroup with id := "x", name := "t" } :=
  ⟨(find_group_precedence [{ newGroup with id := "x", name := "t" }] []
      { newGroup with id := "s", name := "n" } "s" "t"
      (by decide) (by decide)).1 rfl (by decide),
   (find_group_precedence [] [{ newGroup with id := "q", name := "t" }]
      { newGroup with id := "x", name := "t" } "s" "t"
      (by decide) (by decide)).2.1 (by decide) rfl (by decide)⟩

/-- Claim C7: supplying any edit-only flag without `--id`/`--name` makes
`configure` fail with `GroupRequiredForEdit`, and the whole run fails the
same way for every filesystem, i.e. before any load or save I/O is
consulted. The hypothesis `hedit` is the source's guard condition at lines
133-137; because the visibility arguments carry no `default=None`,
`self.opts.user_visible is not None` holds for every parsed invocation
(`user_visible.isSome` is true of every argparse-reachable `Opts`), so
`hedit` is satisfied by every invocation that supplies an edit-only flag —
including a falsy one such as `--description ""` or `--display-order 0`. -/
theorem configure_guard_blocks_run (o : Opts)
    (fs : String → Option (List Group))
    (hedit : (strOptTruthy o.description || intOptTruthy o.display_order ||
      !o.translated_name.isEmpty || !o.translated_description.isEmpty ||
      o.user_visible.isSome) = true)
    (hid : strOptTruthy o.id = false) (hname : strOptTruthy o.name = false) :
    configure o = .error .GroupRequiredForEdit ∧
    full_run o fs = .error .GroupRequiredForEdit := by
  have hconf : configure o = .error .GroupRequiredForEdit := by
    unfold configure
    cases hm : o.merge with
    | none => simp [hedit, hid, hname]
    | some m => simp [hedit, hid, hname]
  refine ⟨hconf, ?_⟩
  unfold full_run
  rw [hconf]
  rfl

/-- Claim C7 witness: `--not-user-visible` alone trips the guard before
any file is read, and so does an empty-string `--description` (whose `Opts`
still carry the parser's `user_visible = False` default). -/
theorem configure_guard_blocks_run_witness :
    (configure { defaultOpts with user_visible := some false } =
      .error .GroupRequiredForEdit ∧
    full_run { defaultOpts with user_visible := some false }
      (fun _ => none) = .error .GroupRequiredForEdit) ∧
    (configure { defaultOpts with description := some "" } =
      .error .GroupRequiredForEdit ∧
    full_run { defaultOpts with description := some "" }
      (fun _ => none) = .error .GroupRequiredForEdit) :=
  ⟨configure_guard_blocks_run { defaultOpts with user_visible := some false }
    (fun _ => none) (by decide) (by decide) (by decide),
   configure_guard_blocks_run { defaultOpts with description := some "" }
    (fun _ => none) (by decide) (by decide) (by decide)⟩

/-- Claim C6: creating a group from only a name (the name locates no
existing group): if the id derived from the name already identifies a
group, the run fails with `DuplicateDerivedIdentifier` carrying the
generated id and the requested name, and no collection is produced;
otherwise the new group with the derived id (and the requested name) is
appended at the end. The appended group carries `uservisible := false`:
the parser's `user_visible` default is `False`, not `None` (no
`default=None` at source lines 108-112), so `edit_group`'s
`is not None` branch always fires on the created group. -/
theorem run_create_by_name (comps : List Group) (n d : String)
    (hn : n ≠ "")
    (hnotfound : find_group_aux comps none (some n) = none)
    (hd : text_to_id n = .ok d) :
    ((∃ x ∈ comps, x.id = d) →
      run_groups { defaultOpts with name := some n } comps =
        .error (.DuplicateDerivedIdentifier d n)) ∧
    ((∀ x ∈ comps, x.id ≠ d) →
      run_groups { defaultOpts with name := some n } comps =
        .ok (comps ++
          [{ newGroup with id := d, name := n, uservisible := false }])) := by
  have hnE : n.isEmpty = false := isEmpty_false_of_ne n hn
  have hdne : d ≠ "" := text_to_id_ok_ne_empty n d hd
  have hdE : d.isEmpty = false := isEmpty_false_of_ne d hdne
  constructor
  · rintro ⟨x, hx, hxid⟩
    have hisSome : (find_group comps (some d) none).isSome = true := by
      unfold find_group find_group_aux
      simp only [hdE, Bool.false_eq_true, if_false]
      cases hfm : firstMatch (fun g => g.id == d) comps with
      | none =>
        rw [firstMatch_eq_none_iff] at hfm
        have := hfm x hx
        simp [hxid] at this
      | some r => simp
    simp [run_groups, defaultOpts, strOptTruthy, hnE, hnotfound, hd, hisSome,
      Except.map]
  · intro hall
    have hnone : firstMatch (fun g => g.id == d) comps = none :=
      (firstMatch_eq_none_iff _ _).mpr (fun x hx => by simp [hall x hx])
    have hisSome : (find_group comps (some d) none).isSome = false := by
      simp [find_group, find_group_aux, hdE, hnone]
    simp [run_groups, defaultOpts, strOptTruthy, hnE, hnotfound, hd, hisSome,
      edit_group, intOptTruthy, Except.map]

/-- Claim C6 witness: `--name "Dev Tools"` derives id `devtools`; against a
collection already holding id `devtools` (under a different name) the run
fails with the duplicate-id error; against an empty collection the group
is appended. -/
theorem run_create_by_name_witness :
    run_groups { defaultOpts with name := some "Dev Tools" }
        [{ newGroup with id := "devtools", name := "zzz" }] =
      .error (.DuplicateDerivedIdentifier "devtools" "Dev Tools") ∧
    run_groups { defaultOpts with name := some "Dev Tools" } [] =
      .ok ([] ++
        [{ newGroup with
            id := "devtools", name := "Dev Tools", uservisible := false }]) :=
  ⟨(run_create_by_name [{ newGroup with id := "devtools", name := "zzz" }]
      "Dev Tools" "devtools" (by decide) rfl rfl).1
      ⟨{ newGroup with id := "devtools", name := "zzz" }, by simp, rfl⟩,
   (run_create_by_name [] "Dev Tools" "devtools"
      (by decide) rfl rfl).2 (by simp)⟩

/-- Claim C2: loading two files merges by appending in order with no
deduplication (every group of the second source is kept, duplicate ids
included), and a subsequent edit addressed to a duplicated id is applied to
the first-loaded occurrence only — the second source's occurrence is
returned unchanged, as `B` appears intact after the edited prefix. -/
theorem merge_append_edit_first (A B : List Group) (d X : String)
    (hd : d ≠ "") (i : Nat) (gA : Group)
    (hfirst : firstMatch (fun g => g.id == d) A = some (i, gA))
    (_hB : ∃ g ∈ B, g.id = d) :
    load_input_files
        (fun nm => if nm == "one" then some A
          else if nm == "two" then some B else none)
        ["one", "two"] = Collection.merge A B ∧
    Collection.merge A B = A ++ B ∧
    (∀ g ∈ B, g ∈ Collection.merge A B) ∧
    run_groups { defaultOpts with id := some d, description := some X }
        (Collection.merge A B) =
      .ok (Collection.merge
        (A.set i (edit_group
          { defaultOpts with id := some d, description := some X } gA))
        B) := by
  refine ⟨?_, rfl, ?_, ?_⟩
  · simp [load_input_files, Collection.merge,
      show (("one" : String) == "one") = true from rfl,
      show (("two" : String) == "one") = false from rfl,
      show (("two" : String) == "two") = true from rfl]
  · intro g hg
    simp [Collection.merge, hg]
  · have ht : strOptTruthy (some d) = true := strOptTruthy_of_ne d hd
    have hlt : i < A.length := firstMatch_some_lt _ _ _ _ hfirst
    have happ : firstMatch (fun g => g.id == d) (A ++ B) = some (i, gA) :=
      firstMatch_append_of_some _ A B _ hfirst
    have hfind : find_group_aux (A ++ B) (some d) none = some (i, gA) := by
      simp [find_group_aux, isEmpty_false_of_ne d hd, happ]
    have hset := set_append_of_lt A B i
      (edit_group { defaultOpts with id := some d, description := some X } gA)
      hlt
    simp only [defaultOpts] at hset
    simp [run_groups, Collection.merge, defaultOpts, ht, hfind, hset]

/-- Claim C2 witness: two one-group sources both defining id `dup`; the
`--id dup --description X` edit lands on the first-loaded occurrence and
the second source's group survives unchanged after it. -/
theorem merge_append_edit_first_witness :
    run_groups { defaultOpts with id := some "dup", description := some "X" }
        (Collection.merge [{ newGroup with id := "dup", name := "A" }]
          [{ newGroup with id := "dup", name := "B" }]) =
      .ok (Collection.merge
        ([{ newGroup with id := "dup", name := "A" }].set 0
          (edit_group
            { defaultOpts with id := some "dup", description := some "X" }
            { newGroup with id := "dup", name := "A" }))
        [{ newGroup with id := "dup", name := "B" }]) :=
  (merge_append_edit_first [{ newGroup with id := "dup", name := "A" }]
      [{ newGroup with id := "dup", name := "B" }] "dup" "X" (by decide) 0
      { newGroup with id := "dup", name := "A" } rfl
      ⟨{ newGroup with id := "dup", name := "B" }, by simp, rfl⟩).2.2.2

end GroupsManager
